import Mathlib

/-!
Verification of the resolution-based refutation engine (`resolver.py`).

The Python source is shallowly embedded as executable Lean definitions:

* literal/clause parsing (`Clause._normalize`, clause splitting) works on
  `List Char`, mirroring the string operations of the source
  (`str.startswith('¬')`, `str.lstrip('¬')`, `str.strip()`, the anchored
  regular expression `(\w+)\((.*?)\)`, `str.split(',')`);
* `unify` is embedded with an explicit fuel parameter counting Python stack
  frames: the outer `none` means the recursion does not terminate within
  `fuel` nested calls (in CPython this surfaces as a `RecursionError`), while
  `some none` / `some (some s)` are the source's `None` / substitution
  results;
* Python `dict` / `set` membership is embedded faithfully to CPython: an
  element is found iff some stored entry has an equal hash AND compares
  equal (`pymem`, `dictLookup`), with `Clause.__hash__` modelled by the
  sorted literal list (`pyHashKey`; CPython hashes the sorted tuple, and
  distinct tuples of distinct strings receive distinct SipHash values);
  set iteration order is modelled as insertion order;
* character classes (`\w`, `str.islower`, `str.isalpha`, `str.strip`) are
  modelled on their ASCII fragment; every input appearing in the claims is
  ASCII apart from the connective glyphs.
-/

/-- ASCII fragment of Python's regex class `\w`. -/
def wordChar (c : Char) : Bool := c.isAlphanum || c == '_'

/-- Model of `str.lstrip('¬')`: drop every leading negation glyph. -/
def lstripNeg : List Char → List Char
  | [] => []
  | c :: r => if c == '¬' then lstripNeg r else c :: r

/-- Model of `str.strip()` (ASCII whitespace). -/
def trim (l : List Char) : List Char :=
  ((l.dropWhile Char.isWhitespace).reverse.dropWhile Char.isWhitespace).reverse

/-- Model of `str.startswith('¬')`. -/
def startsNeg (l : List Char) : Bool :=
  match l with
  | [] => false
  | c :: _ => c == '¬'

/-- Scan for the first `')'` as the non-greedy group `(.*?)\)` does: `.`
does not cross a newline. Returns the characters before the `')'` and the
characters after it. -/
def scanClose : List Char → Option (List Char × List Char)
  | [] => none
  | c :: r =>
    if c == ')' then some ([], r)
    else if c == '\n' then none
    else
      match scanClose r with
      | some (a, b) => some (c :: a, b)
      | none => none

/-- Model of `re.match(r'(\w+)\((.*?)\)', s)`: an anchored match of a
nonempty word-character run, a literal `'('`, and a shortest run up to a
`')'`.  Returns `(group 1, group 2)`; trailing text is ignored, as with
`re.match`. -/
def matchPredArgs (l : List Char) : Option (List Char × List Char) :=
  let w := l.takeWhile wordChar
  match l.dropWhile wordChar with
  | '(' :: r =>
    if w.isEmpty then none
    else
      match scanClose r with
      | some (inside, _) => some (w, inside)
      | none => none
  | _ => none

/-- Model of `str.split(sep)` for a single-character separator: always at
least one piece, empty pieces preserved. -/
def splitOnChar (sep : Char) : List Char → List (List Char)
  | [] => [[]]
  | c :: r =>
    if c == sep then [] :: splitOnChar sep r
    else
      match splitOnChar sep r with
      | h :: t => (c :: h) :: t
      | [] => [[c]]

/-- A normalized literal `(is_negated, predicate, args)`, exactly the tuples
produced by `Clause._normalize`. -/
abbrev NLit := Bool × String × List String

/-- Model of `[arg.strip() for arg in args_str.split(',')] if args_str else []`. -/
def parseArgs (inside : List Char) : List String :=
  if inside.isEmpty then []
  else (splitOnChar ',' inside).map (fun a => String.mk (trim a))

/-- Model of the per-literal body of `Clause._normalize`: negation test,
`lstrip('¬').strip()`, regex match, and the unparsed fallback that keeps the
cleaned text as a nullary predicate name. -/
def normLit (lit : String) : NLit :=
  let neg := startsNeg lit.data
  let clean := trim (lstripNeg lit.data)
  match matchPredArgs clean with
  | some (w, inside) => (neg, String.mk w, parseArgs inside)
  | none => (neg, String.mk clean, [])

/-- A clause is its stored literal strings (`Clause.literals`). -/
abbrev Clause := List String

/-- Model of `Clause._normalize` over the literal list. -/
def normalizeClause (c : Clause) : List NLit := c.map normLit

/-- Model of `re.split(r'\s*∨\s*', clause_str.strip())` followed by
`lit.strip()` on each piece: splitting on each `'∨'` and trimming every
piece yields the same literal strings. -/
def parseClause (s : String) : Clause :=
  (splitOnChar '∨' s.data).map (fun l => String.mk (trim l))

/-- Model of `sep.join(pieces)`. -/
def joinSep (sep : String) : List String → String
  | [] => ""
  | [a] => a
  | a :: b :: r => a ++ sep ++ joinSep sep (b :: r)

/-- The `Substitution` class: an insertion-ordered mapping, as a Python dict. -/
structure Substitution where
  mapping : List (String × String)
  deriving DecidableEq, Repr

/-- Model of `Substitution.apply`. -/
def Substitution.apply (s : Substitution) (t : String) : String :=
  match s.mapping.find? (fun kv => kv.1 == t) with
  | some kv => kv.2
  | none => t

/-- Model of `Substitution.compose`: apply `other` to the right-hand sides of
`self`, then merge in the bindings of `other` whose keys are not yet present. -/
def Substitution.compose (s other : Substitution) : Substitution :=
  ⟨other.mapping.foldl
    (fun acc kv => if acc.any (fun kv2 => kv2.1 == kv.1) then acc else acc ++ [kv])
    (s.mapping.map (fun kv => (kv.1, other.apply kv.2)))⟩

/-- Model of `Substitution.__repr__`. -/
def substRepr (s : Substitution) : String :=
  if s.mapping.isEmpty then "\x7b\x7d"
  else "\x7b" ++ joinSep ", " (s.mapping.map (fun kv => kv.1 ++ "/" ++ kv.2)) ++ "\x7d"

/-- Model of `_is_variable`: a single lowercase (ASCII) letter. -/
def is_variable (t : String) : Bool :=
  match t.data with
  | [c] => c.isLower && c.isAlpha
  | _ => false

/-- Model of `unify`.  The fuel counts nested Python calls; `none` means the
recursion exceeds every finite depth (a `RecursionError` in CPython).  The
source's occurs-check branch computes a condition and then does nothing
(`pass`), so it is omitted. -/
def unify (fuel : Nat) (term1 term2 : List String) (subst : Substitution) :
    Option (Option Substitution) :=
  match fuel with
  | 0 => none
  | fuel + 1 =>
    if term1.length ≠ term2.length then some none
    else
      match term1, term2 with
      | [], _ => some (some subst)
      | t1 :: r1, t2 :: r2 =>
        if t1 = t2 then unify fuel r1 r2 subst
        else if is_variable t1 then
          match subst.mapping.find? (fun kv => kv.1 == t1) with
          | some kv => unify fuel (kv.2 :: r1) term2 subst
          | none => unify fuel r1 r2 (subst.compose ⟨[(t1, t2)]⟩)
        else if is_variable t2 then
          unify fuel term2 term1 subst
        else some none
      | _ :: _, [] => some none

/-- Rendering of a kept literal inside `resolve` after applying the
substitution: bare name when the argument list is empty. -/
def renderApplied (s : Substitution) (t : NLit) : String :=
  let applied := t.2.2.map (fun a => s.apply a)
  if applied.isEmpty then (if t.1 then "¬" else "") ++ t.2.1
  else (if t.1 then "¬" else "") ++ t.2.1 ++ "(" ++ joinSep ", " applied ++ ")"

/-- Rendering of a selected literal (`lit1_str` / `lit2_str` in `resolve`):
the parentheses are emitted even for an empty argument list. -/
def renderSel (t : NLit) : String :=
  (if t.1 then "¬" else "") ++ t.2.1 ++ "(" ++ joinSep ", " t.2.2 ++ ")"

/-- The literal-collection loop of `resolve` for one parent clause: every
normalized literal structurally different from the selected one is rendered
under the substitution and kept. -/
def buildSide (s : Substitution) (norm : List NLit) (sel : NLit) : List String :=
  (norm.filter (fun t => t != sel)).map (renderApplied s)

/-- Model of `list(dict.fromkeys(...))`: deduplicate keeping first occurrences. -/
def dedupGo (seen : List String) : List String → List String
  | [] => []
  | x :: xs => if seen.contains x then dedupGo seen xs else x :: dedupGo (x :: seen) xs

/-- Deduplication entry point used on resolvent literals. -/
def dedupFirst (l : List String) : List String := dedupGo [] l

/-- One entry of the list returned by `resolve`:
`(resolvent literals, substitution, lit1_str, lit2_str)`. -/
abbrev Res := Clause × Substitution × String × String

/-- Inner loop of `resolve`: one selected literal of clause 1 against every
literal of clause 2. -/
def resolveInner (fuel : Nat) (n1 n2 : List NLit) (l1 : NLit) :
    List NLit → Option (List Res)
  | [] => some []
  | l2 :: rest =>
    if l1.1 != l2.1 && l1.2.1 == l2.2.1 then
      match unify fuel l1.2.2 l2.2.2 ⟨[]⟩ with
      | none => none
      | some none => resolveInner fuel n1 n2 l1 rest
      | some (some s) =>
        match resolveInner fuel n1 n2 l1 rest with
        | none => none
        | some rs =>
          some ((dedupFirst (buildSide s n1 l1 ++ buildSide s n2 l2), s,
                 renderSel l1, renderSel l2) :: rs)
    else resolveInner fuel n1 n2 l1 rest

/-- Outer loop of `resolve` over the literals of clause 1. -/
def resolveOuter (fuel : Nat) (n1 n2 : List NLit) : List NLit → Option (List Res)
  | [] => some []
  | l1 :: rest =>
    match resolveInner fuel n1 n2 l1 n2 with
    | none => none
    | some rs =>
      match resolveOuter fuel n1 n2 rest with
      | none => none
      | some rs2 => some (rs ++ rs2)

/-- Model of `resolve`: all resolvents of two clauses, in source order.  An
empty literal list in an entry is the empty clause (the source appends it as
`Clause([])`). -/
def resolve (fuel : Nat) (c1 c2 : Clause) : Option (List Res) :=
  resolveOuter fuel (normalizeClause c1) (normalizeClause c2) (normalizeClause c1)

/-- Model of `Clause.__eq__`: equality of the literal-string sets. -/
def clauseEqB (c1 c2 : Clause) : Bool :=
  c1.all (fun l => c2.contains l) && c2.all (fun l => c1.contains l)

/-- Lexicographic code-point comparison, as Python compares strings. -/
def listCharLe : List Char → List Char → Bool
  | [], _ => true
  | _ :: _, [] => false
  | a :: as, b :: bs => if a < b then true else if b < a then false else listCharLe as bs

/-- String order used by `sorted`. -/
def strLe (a b : String) : Bool := listCharLe a.data b.data

/-- Insertion step of the sort modelling Python's `sorted`. -/
def insertSorted (x : String) : List String → List String
  | [] => [x]
  | y :: ys => if strLe x y then x :: y :: ys else y :: insertSorted x ys

/-- Model of `sorted(literals)` (the sorted result is unique, so any correct
sort gives Python's list). -/
def sortLits (l : List String) : List String := l.foldr insertSorted []

/-- Model of `Clause.__hash__`, i.e. `hash(tuple(sorted(self.literals)))`:
the hash key is the sorted literal list, duplicates kept; two clauses
receive the same CPython hash iff their keys are equal. -/
def pyHashKey (c : Clause) : List String := sortLits c

/-- CPython `set`/`dict` membership: found iff some stored element has an
equal hash and compares equal. -/
def pymem (c : Clause) (s : List Clause) : Bool :=
  s.any (fun k => pyHashKey k == pyHashKey c && clauseEqB k c)

/-- CPython `set.add`, with iteration order modelled as insertion order. -/
def setInsert (s : List Clause) (c : Clause) : List Clause :=
  if pymem c s then s else s ++ [c]

/-- Mutable state of one `resolution_proof` run: the clause universe, the
frontier, the log, and the clause-ID registry (`clause_ids`, `next_clause_id`,
`step_num`). -/
structure PSt where
  allC : List Clause
  newC : List Clause
  log : List String
  ids : List (Clause × Nat)
  nextId : Nat
  stepNum : Nat
  deriving Repr

/-- Lookup in the `clause_ids` dict (CPython semantics: equal hash and equal). -/
def dictLookup (ids : List (Clause × Nat)) (c : Clause) : Option Nat :=
  match ids.find? (fun kv => pyHashKey kv.1 == pyHashKey c && clauseEqB kv.1 c) with
  | some kv => some kv.2
  | none => none

/-- Model of `get_clause_id`: memoized fresh positive IDs. -/
def getClauseId (st : PSt) (c : Clause) : Nat × PSt :=
  match dictLookup st.ids c with
  | some i => (i, st)
  | none => (st.nextId, { st with ids := st.ids ++ [(c, st.nextId)], nextId := st.nextId + 1 })

/-- Model of `clause_to_str`. -/
def clauseToStr (c : Clause) : String :=
  if c.isEmpty then "Пустая клауза (⊥)" else joinSep " ∨ " c

/-- Model of `format_clause` (assigns an ID as a side effect). -/
def formatClause (st : PSt) (c : Clause) : String × PSt :=
  let p := getClauseId st c
  ("[#" ++ toString p.1 ++ "] " ++ clauseToStr c, p.2)

/-- The contradiction branch of the saturation loop: the five log lines
appended when an empty-clause resolvent appears. -/
def logContra (c1 c2 nc : Clause) (s : Substitution) (l1 l2 : String) (st : PSt) : PSt :=
  let p1 := formatClause st c1
  let p2 := formatClause p1.2 c2
  let p3 := formatClause p2.2 nc
  { p3.2 with log := p3.2.log ++
      ["\nШаг " ++ toString st.stepNum ++ ": Противоречие найдено!",
       "  Клауза 1: " ++ p1.1,
       "  Клауза 2: " ++ p2.1,
       "  Унификация " ++ substRepr s ++ " в литералах \x27" ++ l1 ++ "\x27 и \x27" ++ l2 ++ "\x27",
       "  Результат: " ++ p3.1 ++ " (противоречие)"] }

/-- The non-empty-resolvent branch: if the clause is new, add it to the
universe and the frontier, log the step, and advance `step_num`. -/
def addStep (c1 c2 nc : Clause) (s : Substitution) (l1 l2 : String) (st : PSt) : PSt :=
  if pymem nc st.allC then st
  else
    let st0 := { st with allC := setInsert st.allC nc, newC := setInsert st.newC nc }
    let p1 := formatClause st0 c1
    let p2 := formatClause p1.2 c2
    let p3 := formatClause p2.2 nc
    { p3.2 with
        log := p3.2.log ++
          ["\nШаг " ++ toString st.stepNum ++ ": Резолюция",
           "  Клауза 1: " ++ p1.1,
           "  Клауза 2: " ++ p2.1,
           "  Унификация " ++ substRepr s ++ " в литералах \x27" ++ l1 ++ "\x27 и \x27" ++ l2 ++ "\x27",
           "  Результат: " ++ p3.1],
        stepNum := st.stepNum + 1 }

/-- The return value of `resolution_proof`. -/
abbrev Ret := Bool × List String

/-- The `for new_clause, subst, lit1, lit2 in resolutions` loop:
`Except.error` is the early `return True, log`. -/
def procRes (c1 c2 : Clause) : List Res → PSt → Except Ret PSt
  | [], st => Except.ok st
  | (nc, s, l1, l2) :: rest, st =>
    if nc.isEmpty then Except.error (true, (logContra c1 c2 nc s l1 l2 st).log)
    else procRes c1 c2 rest (addStep c1 c2 nc s l1 l2 st)

/-- One `(clause1, clause2)` pair: the self-pairing skip and the `resolve`
call (whose unification may diverge, giving the outer `none`). -/
def procPair (fuel : Nat) (c1 c2 : Clause) (st : PSt) : Option (Except Ret PSt) :=
  if clauseEqB c1 c2 then some (Except.ok st)
  else
    match resolve fuel c1 c2 with
    | none => none
    | some rs => some (procRes c1 c2 rs st)

/-- Inner pair loop: `for clause2 in current_new`. -/
def procPairs (fuel : Nat) (c1 : Clause) : List Clause → PSt → Option (Except Ret PSt)
  | [], st => some (Except.ok st)
  | c2 :: rest, st =>
    match procPair fuel c1 c2 st with
    | none => none
    | some (Except.error r) => some (Except.error r)
    | some (Except.ok st2) => procPairs fuel c1 rest st2

/-- Outer pair loop: `for clause1 in all_clauses_list`. -/
def procAll (fuel : Nat) (news : List Clause) : List Clause → PSt → Option (Except Ret PSt)
  | [], st => some (Except.ok st)
  | c1 :: rest, st =>
    match procPairs fuel c1 news st with
    | none => none
    | some (Except.error r) => some (Except.error r)
    | some (Except.ok st2) => procAll fuel news rest st2

/-- The `while iteration < max_iterations` loop, structured over the number
of remaining iterations (initially 100). -/
def loopIter (fuel : Nat) : Nat → PSt → Option Ret
  | 0, st => some (false, st.log ++ ["\nДостигнут лимит итераций (100). Противоречие не найдено."])
  | rem + 1, st =>
    match procAll fuel st.newC st.allC { st with newC := [] } with
    | none => none
    | some (Except.error r) => some r
    | some (Except.ok st2) =>
      if st2.newC.isEmpty then
        some (false, st2.log ++
          ["\nНе удалось найти противоречие после " ++ toString (st2.stepNum - 1) ++ " шагов.",
           "Всего выведено клауз: " ++ toString st2.allC.length])
      else loopIter fuel rem st2

/-- Model of `resolution_proof`: parse the clause texts, log the inputs with
fresh IDs, initialize the clause sets, and run up to 100 iterations.  `none`
means an unbounded unification recursion was reached (no value is returned
by the source on such inputs). -/
def resolution_proof (fuel : Nat) (clauses : List String) : Option Ret :=
  let cs := clauses.map parseClause
  let st0 : PSt := { allC := [], newC := [],
                     log := ["Начальные клаузы: " ++ toString cs.length],
                     ids := [], nextId := 1, stepNum := 1 }
  let st1 := cs.foldl (fun st c =>
      let p := formatClause st c
      { p.2 with log := p.2.log ++ ["  " ++ p.1] }) st0
  let st2 := { st1 with allC := cs.foldl setInsert [], newC := cs.foldl setInsert [] }
  loopIter fuel 100 st2

/-- Observation helper: the log of a completed run (empty if none). -/
def logOfRun : Option Ret → List String
  | some r => r.2
  | none => []

/-- Observation helper: index of the first log line equal to `line`
(`log.length` when absent). -/
def firstLineIdx (log : List String) (line : String) : Nat :=
  log.findIdx (fun l => l == line)

/-- Nonempty all-word-character text: the shape of a bare identifier. -/
def isWordStr (l : List Char) : Bool := !l.isEmpty && l.all wordChar

/-- Syntactic side conditions on an argument token under which the source's
rendering is re-parsed losslessly: nonempty, no comma, no close-paren, no
newline, and no surrounding whitespace. -/
def argOk (a : String) : Bool :=
  !a.data.isEmpty &&
  a.data.all (fun c => !(c == ',') && !(c == ')') && !(c == '\n')) &&
  (trim a.data == a.data)

theorem wordChar_not_ws {c : Char} (h : wordChar c = true) : c.isWhitespace = false := by
  cases hw : c.isWhitespace
  · rfl
  · exfalso
    have hc : ((c = ' ' ∨ c = '\t') ∨ c = '\r') ∨ c = '\n' := by
      simpa [Char.isWhitespace] using hw
    rcases hc with ((rfl | rfl) | rfl) | rfl <;> exact absurd h (by decide)

theorem headMem {α : Type} {l : List α} {a : α} (h : l.head? = some a) : a ∈ l := by
  cases l with
  | nil => simp at h
  | cons b t =>
    simp only [List.head?] at h
    rw [Option.some_inj] at h
    subst h
    exact List.mem_cons_self b t

theorem dropWhile_ws_eq_self {l : List Char}
    (h : ∀ c, l.head? = some c → c.isWhitespace = false) :
    l.dropWhile Char.isWhitespace = l := by
  cases l with
  | nil => rfl
  | cons a t =>
    rw [List.dropWhile_cons, h a rfl]
    simp

theorem trim_eq_self {l : List Char}
    (h1 : ∀ c, l.head? = some c → c.isWhitespace = false)
    (h2 : ∀ c, l.reverse.head? = some c → c.isWhitespace = false) : trim l = l := by
  unfold trim
  rw [dropWhile_ws_eq_self h1, dropWhile_ws_eq_self h2, List.reverse_reverse]

theorem trim_of_all_word {l : List Char} (h : l.all wordChar = true) : trim l = l := by
  refine trim_eq_self ?_ ?_
  · intro c hc
    exact wordChar_not_ws ((List.all_eq_true.mp h) c (headMem hc))
  · intro c hc
    have hm : c ∈ l.reverse := headMem hc
    rw [List.mem_reverse] at hm
    exact wordChar_not_ws ((List.all_eq_true.mp h) c hm)

theorem trim_cons_space (l : List Char) : trim (' ' :: l) = trim l := by
  unfold trim
  rw [show (' ' :: l).dropWhile Char.isWhitespace = l.dropWhile Char.isWhitespace from rfl]

theorem lstripNeg_cons_ne {c : Char} {r : List Char} (h : (c == '¬') = false) :
    lstripNeg (c :: r) = c :: r := by
  simp [lstripNeg, h]

theorem takeWhile_word_pre {t : List Char} :
    ∀ l1 : List Char, l1.all wordChar = true →
      (l1 ++ '(' :: t).takeWhile wordChar = l1 := by
  intro l1 h
  induction l1 with
  | nil => rfl
  | cons c cs ih =>
    rw [List.all_cons, Bool.and_eq_true] at h
    simp [List.takeWhile_cons, h.1, ih h.2]

theorem dropWhile_word_pre {t : List Char} :
    ∀ l1 : List Char, l1.all wordChar = true →
      (l1 ++ '(' :: t).dropWhile wordChar = '(' :: t := by
  intro l1 h
  induction l1 with
  | nil => rfl
  | cons c cs ih =>
    rw [List.all_cons, Bool.and_eq_true] at h
    simp [List.dropWhile_cons, h.1, ih h.2]

theorem takeWhile_word_all : ∀ l : List Char, l.all wordChar = true →
    l.takeWhile wordChar = l ∧ l.dropWhile wordChar = [] := by
  intro l h
  induction l with
  | nil => exact ⟨rfl, rfl⟩
  | cons c cs ih =>
    rw [List.all_cons, Bool.and_eq_true] at h
    have := ih h.2
    simp [List.takeWhile_cons, List.dropWhile_cons, h.1, this.1, this.2]

theorem scanClose_append {r : List Char} :
    ∀ l : List Char, l.all (fun c => !(c == ')') && !(c == '\n')) = true →
      scanClose (l ++ ')' :: r) = some (l, r) := by
  intro l h
  induction l with
  | nil => rfl
  | cons c cs ih =>
    rw [List.all_cons, Bool.and_eq_true] at h
    obtain ⟨hc, hcs⟩ := h
    rw [Bool.and_eq_true] at hc
    simp only [List.cons_append, scanClose]
    rw [show (c == ')') = false by simpa using hc.1, show (c == '\n') = false by simpa using hc.2]
    simp [ih hcs]

theorem splitOnChar_no_sep {sep : Char} :
    ∀ l : List Char, l.all (fun c => !(c == sep)) = true →
      splitOnChar sep l = [l] := by
  intro l h
  induction l with
  | nil => rfl
  | cons c cs ih =>
    rw [List.all_cons, Bool.and_eq_true] at h
    simp only [splitOnChar]
    rw [show (c == sep) = false by simpa using h.1]
    simp [ih h.2]

theorem splitOnChar_append_sep {sep : Char} {l2 : List Char} :
    ∀ l1 : List Char, l1.all (fun c => !(c == sep)) = true →
      splitOnChar sep (l1 ++ sep :: l2) = l1 :: splitOnChar sep l2 := by
  intro l1 h
  induction l1 with
  | nil => simp [splitOnChar]
  | cons c cs ih =>
    rw [List.all_cons, Bool.and_eq_true] at h
    simp only [List.cons_append, splitOnChar]
    rw [show (c == sep) = false by simpa using h.1]
    simp [ih h.2]

theorem argOk_no_comma {a : String} (h : argOk a = true) :
    a.data.all (fun c => !(c == ',')) = true := by
  unfold argOk at h
  rw [Bool.and_eq_true, Bool.and_eq_true] at h
  rw [List.all_eq_true]
  intro c hc
  have := (List.all_eq_true.mp h.1.2) c hc
  rw [Bool.and_eq_true, Bool.and_eq_true] at this
  exact this.1.1

theorem argOk_no_close {a : String} (h : argOk a = true) :
    a.data.all (fun c => !(c == ')') && !(c == '\n')) = true := by
  unfold argOk at h
  rw [Bool.and_eq_true, Bool.and_eq_true] at h
  rw [List.all_eq_true]
  intro c hc
  have := (List.all_eq_true.mp h.1.2) c hc
  rw [Bool.and_eq_true, Bool.and_eq_true] at this
  rw [Bool.and_eq_true]
  exact ⟨this.1.2, this.2⟩

theorem argOk_trim {a : String} (h : argOk a = true) : trim a.data = a.data := by
  unfold argOk at h
  rw [Bool.and_eq_true, Bool.and_eq_true] at h
  exact eq_of_beq h.2

theorem argOk_ne_nil {a : String} (h : argOk a = true) : a.data ≠ [] := by
  unfold argOk at h
  rw [Bool.and_eq_true, Bool.and_eq_true] at h
  have := h.1.1
  simpa [List.isEmpty_iff] using this

theorem joinSep_data_cons2 (a b : String) (r : List String) :
    (joinSep ", " (a :: b :: r)).data = a.data ++ ',' :: ' ' :: (joinSep ", " (b :: r)).data := by
  show (a ++ ", " ++ joinSep ", " (b :: r)).data = _
  simp [String.data_append, show ", ".data = [',', ' '] from rfl]

theorem join_no_bad : ∀ (as : List String) (a : String), argOk a = true →
    (∀ b ∈ as, argOk b = true) →
    (joinSep ", " (a :: as)).data.all (fun c => !(c == ')') && !(c == '\n')) = true := by
  intro as
  induction as with
  | nil => intro a ha _; exact argOk_no_close ha
  | cons b bs ih =>
    intro a ha hbs
    rw [joinSep_data_cons2, List.all_append]
    rw [Bool.and_eq_true]
    refine ⟨argOk_no_close ha, ?_⟩
    show (([',', ' '] ++ (joinSep ", " (b :: bs)).data).all fun c => !(c == ')') && !(c == '\n')) = true
    rw [List.all_append]
    rw [show ([',', ' '].all fun c => !(c == ')') && !(c == '\n')) = true from rfl]
    rw [Bool.true_and]
    exact ih b (hbs b (List.mem_cons_self b bs)) (fun x hx => hbs x (List.mem_cons_of_mem b hx))

theorem join_ne_nil {a : String} (as : List String) (ha : a.data ≠ []) :
    (joinSep ", " (a :: as)).data ≠ [] := by
  cases as with
  | nil => exact ha
  | cons b bs =>
    rw [joinSep_data_cons2]
    intro h
    rcases List.append_eq_nil.mp h with ⟨h1, h2⟩
    exact List.cons_ne_nil _ _ h2

theorem split_join : ∀ (as : List String) (a : String), argOk a = true →
    (∀ b ∈ as, argOk b = true) →
    splitOnChar ',' (joinSep ", " (a :: as)).data =
      a.data :: as.map (fun b => ' ' :: b.data) := by
  intro as
  induction as with
  | nil =>
    intro a ha _
    exact splitOnChar_no_sep a.data (argOk_no_comma ha)
  | cons b bs ih =>
    intro a ha hbs
    rw [joinSep_data_cons2]
    rw [splitOnChar_append_sep a.data (argOk_no_comma ha)]
    simp only [splitOnChar]
    rw [show ((' ' : Char) == ',') = false from rfl]
    rw [ih b (hbs b (List.mem_cons_self b bs)) (fun x hx => hbs x (List.mem_cons_of_mem b hx))]
    simp

theorem mapMk : ∀ (as : List String), (∀ b ∈ as, argOk b = true) →
    (as.map (fun b => ' ' :: b.data)).map (fun x => String.mk (trim x)) = as := by
  intro as h
  induction as with
  | nil => rfl
  | cons b bs ih =>
    simp only [List.map_cons]
    rw [trim_cons_space, argOk_trim (h b (List.mem_cons_self b bs))]
    rw [ih (fun x hx => h x (List.mem_cons_of_mem b hx))]

theorem parseArgs_join (a : String) (as : List String) (ha : argOk a = true)
    (has : ∀ b ∈ as, argOk b = true) :
    parseArgs (joinSep ", " (a :: as)).data = a :: as := by
  have hne : (joinSep ", " (a :: as)).data ≠ [] := join_ne_nil as (argOk_ne_nil ha)
  have hie : (joinSep ", " (a :: as)).data.isEmpty = false := by
    rw [← Bool.not_eq_true, List.isEmpty_iff]
    exact hne
  simp only [parseArgs, hie, Bool.false_eq_true, if_false]
  rw [split_join as a ha has]
  simp only [List.map_cons]
  rw [argOk_trim ha]
  rw [mapMk as has]

theorem applyNil : ∀ l : List String, l.map (fun a => Substitution.apply ⟨[]⟩ a) = l := by
  intro l
  induction l with
  | nil => rfl
  | cons a t ih => simp only [List.map_cons, ih]; rfl

theorem beq_neg_false {c : Char} (h : wordChar c = true) : (c == '¬') = false := by
  cases hc : c == '¬'
  · rfl
  · exfalso
    rw [eq_of_beq hc] at h
    exact absurd h (by decide)

theorem unify_div_inner : ∀ n : Nat,
    unify n ["y"] ["cc"] ⟨[("y", "y"), ("x", "y")]⟩ = none := by
  intro n
  induction n with
  | zero => rfl
  | succ k ih =>
    rw [show unify (k + 1) ["y"] ["cc"] ⟨[("y", "y"), ("x", "y")]⟩
        = unify k ["y"] ["cc"] ⟨[("y", "y"), ("x", "y")]⟩ from rfl]
    exact ih

theorem unify_div_mid : ∀ n : Nat,
    unify n ["x", "y"] ["y", "cc"] ⟨[("y", "x")]⟩ = none := by
  intro n
  match n with
  | 0 => rfl
  | k + 1 =>
    rw [show unify (k + 1) ["x", "y"] ["y", "cc"] ⟨[("y", "x")]⟩
        = unify k ["y"] ["cc"] ⟨[("y", "y"), ("x", "y")]⟩ from rfl]
    exact unify_div_inner k

theorem unify_div : ∀ n : Nat,
    unify n ["y", "x", "y"] ["x", "y", "cc"] ⟨[]⟩ = none := by
  intro n
  match n with
  | 0 => rfl
  | k + 1 =>
    rw [show unify (k + 1) ["y", "x", "y"] ["x", "y", "cc"] ⟨[]⟩
        = unify k ["x", "y"] ["y", "cc"] ⟨[("y", "x")]⟩ from rfl]
    exact unify_div_mid k

theorem resolveInner_div : ∀ fuel : Nat, resolveInner fuel
    [(false, "P", ["y", "x", "y"])] [(true, "P", ["x", "y", "cc"])]
    (false, "P", ["y", "x", "y"]) [(true, "P", ["x", "y", "cc"])] = none := by
  intro fuel
  show (match unify fuel ["y", "x", "y"] ["x", "y", "cc"] ⟨[]⟩ with
        | none => none
        | some none => (some [] : Option (List Res))
        | some (some s) =>
          some [(dedupFirst (buildSide s [(false, "P", ["y", "x", "y"])] (false, "P", ["y", "x", "y"]) ++
                 buildSide s [(true, "P", ["x", "y", "cc"])] (true, "P", ["x", "y", "cc"])), s,
                 renderSel (false, "P", ["y", "x", "y"]), renderSel (true, "P", ["x", "y", "cc"]))]) = none
  rw [unify_div fuel]

theorem resolve_div : ∀ fuel : Nat,
    resolve fuel ["P(y, x, y)"] ["¬P(x, y, cc)"] = none := by
  intro fuel
  show (match resolveInner fuel
      [(false, "P", ["y", "x", "y"])] [(true, "P", ["x", "y", "cc"])]
      (false, "P", ["y", "x", "y"]) [(true, "P", ["x", "y", "cc"])] with
    | none => (none : Option (List Res))
    | some rs =>
      match resolveOuter fuel [(false, "P", ["y", "x", "y"])] [(true, "P", ["x", "y", "cc"])] [] with
      | none => none
      | some rs2 => some (rs ++ rs2)) = none
  rw [resolveInner_div fuel]

theorem procPair_div (fuel : Nat) (st : PSt) :
    procPair fuel ["P(y, x, y)"] ["¬P(x, y, cc)"] st = none := by
  show (match resolve fuel ["P(y, x, y)"] ["¬P(x, y, cc)"] with
        | none => none
        | some rs => some (procRes ["P(y, x, y)"] ["¬P(x, y, cc)"] rs st)) = none
  rw [resolve_div fuel]

theorem procPairs_div (fuel : Nat) (st : PSt) :
    procPairs fuel ["P(y, x, y)"] [["P(y, x, y)"], ["¬P(x, y, cc)"]] st = none := by
  show (match procPair fuel ["P(y, x, y)"] ["¬P(x, y, cc)"] st with
        | none => none
        | some (Except.error r) => some (Except.error r)
        | some (Except.ok st2) => procPairs fuel ["P(y, x, y)"] [] st2) = none
  rw [procPair_div fuel st]

theorem procAll_div (fuel : Nat) (st : PSt) :
    procAll fuel [["P(y, x, y)"], ["¬P(x, y, cc)"]] [["P(y, x, y)"], ["¬P(x, y, cc)"]] st = none := by
  show (match procPairs fuel ["P(y, x, y)"] [["P(y, x, y)"], ["¬P(x, y, cc)"]] st with
        | none => none
        | some (Except.error r) => some (Except.error r)
        | some (Except.ok st2) =>
            procAll fuel [["P(y, x, y)"], ["¬P(x, y, cc)"]] [["¬P(x, y, cc)"]] st2) = none
  rw [procPairs_div fuel st]

theorem resolution_proof_div (fuel : Nat) :
    resolution_proof fuel ["P(y, x, y)", "¬P(x, y, cc)"] = none := by
  show (match procAll fuel [["P(y, x, y)"], ["¬P(x, y, cc)"]] [["P(y, x, y)"], ["¬P(x, y, cc)"]]
          ⟨[["P(y, x, y)"], ["¬P(x, y, cc)"]], [],
           ["Начальные клаузы: 2", "  [#1] P(y, x, y)", "  [#2] ¬P(x, y, cc)"],
           [(["P(y, x, y)"], 1), (["¬P(x, y, cc)"], 2)], 3, 1⟩ with
        | none => none
        | some (Except.error r) => some r
        | some (Except.ok st2) =>
          if st2.newC.isEmpty then
            some (false, st2.log ++
              ["\nНе удалось найти противоречие после " ++ toString (st2.stepNum - 1) ++ " шагов.",
               "Всего выведено клауз: " ++ toString st2.allC.length])
          else loopIter fuel 99 st2) = none
  rw [procAll_div fuel]

/-- C1: the totality claim fails on the code.  On the input clauses
`P(y, x, y)` and `¬P(x, y, cc)` the very first resolution candidate calls
`unify` on the argument lists `[y, x, y]` and `[x, y, cc]`; after binding
`y ↦ x` and then `x ↦ y`, composition leaves `y` bound to itself, and the
bound-variable branch re-enters `unify` with unchanged arguments, so the
recursion exceeds every finite depth (a `RecursionError` in CPython) and
`resolution_proof` never returns a `(found, log)` pair. -/
theorem c1_engine_diverges :
    (∀ fuel : Nat, unify fuel ["y", "x", "y"] ["x", "y", "cc"] ⟨[]⟩ = none) ∧
    (∀ fuel : Nat, resolution_proof fuel ["P(y, x, y)", "¬P(x, y, cc)"] = none) :=
  ⟨unify_div, resolution_proof_div⟩

/-- C2 counterexample: `unify(["a"], ["b"])` does not fail — both tokens are
single lowercase letters, hence variables, and the call succeeds with the
substitution `a/b`. -/
theorem c2_unify_ab_succeeds :
    unify 10 ["a"] ["b"] ⟨[]⟩ = some (some ⟨[("a", "b")]⟩) ∧
    unify 10 ["a"] ["b"] ⟨[]⟩ ≠ some none := by
  decide

/-- C2 (amended): `unify(["a"], ["b"])` succeeds with the substitution
`a/b`, because single lowercase letters are classified as variables;
on distinct multi-letter constants such as `["aa"]` and `["bb"]` the call
fails as the original claim intended. -/
theorem c2_amended_unify :
    unify 10 ["a"] ["b"] ⟨[]⟩ = some (some ⟨[("a", "b")]⟩) ∧
    unify 10 ["aa"] ["bb"] ⟨[]⟩ = some none := by
  decide

/-- C3: the equality half holds on the claim's example — the two parses
compare equal — but the hash half fails: `Clause.__hash__` sorts the literal
list without removing duplicates, so the two equal clauses have different
hash keys (`hash(tuple(sorted(literals)))` differs), violating both the
claim and Python's own equal-objects-equal-hashes contract. -/
theorem c3_eq_hash_inconsistent :
    clauseEqB (parseClause "P(x) ∨ Q(y)") (parseClause "Q(y) ∨ P(x) ∨ Q(y)") = true ∧
    pyHashKey (parseClause "P(x) ∨ Q(y)") ≠ pyHashKey (parseClause "Q(y) ∨ P(x) ∨ Q(y)") := by
  decide

/-- C4: the Socrates syllogism closes with `found = true`, and the log line
deriving `Mortal(socrates)` (step 1, clause `[#4]`) appears strictly before
the final empty-clause line, which is the last line of the log. -/
theorem c4_syllogism_trace :
    (resolution_proof 50 ["¬Human(x) ∨ Mortal(x)", "Human(socrates)", "¬Mortal(socrates)"]).map Prod.fst
      = some true ∧
    (let L := logOfRun (resolution_proof 50 ["¬Human(x) ∨ Mortal(x)", "Human(socrates)", "¬Mortal(socrates)"]);
     firstLineIdx L "  Результат: [#4] Mortal(socrates)" <
       firstLineIdx L "  Результат: [#6] Пустая клауза (⊥) (противоречие)" ∧
     firstLineIdx L "  Результат: [#6] Пустая клауза (⊥) (противоречие)" = L.length - 1 ∧
     firstLineIdx L "  Результат: [#4] Mortal(socrates)" < L.length) := by
  decide

/-- C5: an empty-clause resolvent at the head of the resolvent list makes the
engine log the contradiction block and return `(true, log)` at once — the
remaining resolvents (`rest`), the remaining clause pairs (`restC2`,
`restC1`) and the remaining iterations (`rem`) are quantified on the left
but absent from the result, so nothing after the empty clause is processed. -/
theorem c5_empty_clause_immediate_return :
    (∀ (c1 c2 : Clause) (s : Substitution) (l1 l2 : String) (rest : List Res) (st : PSt),
      procRes c1 c2 (([], s, l1, l2) :: rest) st =
        Except.error (true, (logContra c1 c2 [] s l1 l2 st).log)) ∧
    (∀ (fuel : Nat) (c1 c2 : Clause) (st : PSt) (r : Ret),
      procPair fuel c1 c2 st = some (Except.error r) →
      ∀ restC2 : List Clause,
        procPairs fuel c1 (c2 :: restC2) st = some (Except.error r)) ∧
    (∀ (fuel : Nat) (news : List Clause) (c1 : Clause) (st : PSt) (r : Ret),
      procPairs fuel c1 news st = some (Except.error r) →
      ∀ restC1 : List Clause,
        procAll fuel news (c1 :: restC1) st = some (Except.error r)) ∧
    (∀ (fuel rem : Nat) (st : PSt) (r : Ret),
      procAll fuel st.newC st.allC { st with newC := [] } = some (Except.error r) →
      loopIter fuel (rem + 1) st = some r) := by
  refine ⟨?_, ?_, ?_, ?_⟩
  · intro c1 c2 s l1 l2 rest st
    rfl
  · intro fuel c1 c2 st r h restC2
    show (match procPair fuel c1 c2 st with
          | none => none
          | some (Except.error r) => some (Except.error r)
          | some (Except.ok st2) => procPairs fuel c1 restC2 st2) = some (Except.error r)
    rw [h]
  · intro fuel news c1 st r h restC1
    show (match procPairs fuel c1 news st with
          | none => none
          | some (Except.error r) => some (Except.error r)
          | some (Except.ok st2) => procAll fuel news restC1 st2) = some (Except.error r)
    rw [h]
  · intro fuel rem st r h
    show (match procAll fuel st.newC st.allC { st with newC := [] } with
          | none => none
          | some (Except.error r) => some r
          | some (Except.ok st2) =>
            if st2.newC.isEmpty then
              some (false, st2.log ++
                ["\nНе удалось найти противоречие после " ++ toString (st2.stepNum - 1) ++ " шагов.",
                 "Всего выведено клауз: " ++ toString st2.allC.length])
            else loopIter fuel rem st2) = some r
    rw [h]

/-- C5 witness: each part of the immediate-return theorem instantiated on a
concrete contradictory state (clauses `P(a)` and `¬P(a)`), with every
hypothesis discharged by evaluation. -/
theorem c5_empty_clause_immediate_return_witness :
    procRes ["P(a)"] ["¬P(a)"] (([], ⟨[]⟩, "P(a)", "¬P(a)") :: [(["Q(b)"], ⟨[]⟩, "q", "r")])
        ⟨[["P(a)"], ["¬P(a)"]], [["P(a)"], ["¬P(a)"]], [], [], 1, 1⟩ =
      Except.error (true, (logContra ["P(a)"] ["¬P(a)"] [] ⟨[]⟩ "P(a)" "¬P(a)"
        ⟨[["P(a)"], ["¬P(a)"]], [["P(a)"], ["¬P(a)"]], [], [], 1, 1⟩).log) ∧
    procPairs 5 ["P(a)"] (["¬P(a)"] :: [["Z(b)"]])
        ⟨[["P(a)"], ["¬P(a)"]], [["P(a)"], ["¬P(a)"]], [], [], 1, 1⟩ =
      some (Except.error (true, (logContra ["P(a)"] ["¬P(a)"] [] ⟨[]⟩ "P(a)" "¬P(a)"
        ⟨[["P(a)"], ["¬P(a)"]], [["P(a)"], ["¬P(a)"]], [], [], 1, 1⟩).log)) ∧
    procAll 5 [["¬P(a)"]] (["P(a)"] :: [["Z(b)"]])
        ⟨[["P(a)"], ["¬P(a)"]], [["P(a)"], ["¬P(a)"]], [], [], 1, 1⟩ =
      some (Except.error (true, (logContra ["P(a)"] ["¬P(a)"] [] ⟨[]⟩ "P(a)" "¬P(a)"
        ⟨[["P(a)"], ["¬P(a)"]], [["P(a)"], ["¬P(a)"]], [], [], 1, 1⟩).log)) ∧
    loopIter 5 8 ⟨[["P(a)"], ["¬P(a)"]], [["P(a)"], ["¬P(a)"]], [], [], 1, 1⟩ =
      some (true, (logContra ["P(a)"] ["¬P(a)"] [] ⟨[]⟩ "P(a)" "¬P(a)"
        ⟨[["P(a)"], ["¬P(a)"]], [], [], [], 1, 1⟩).log) :=
  ⟨c5_empty_clause_immediate_return.1 ["P(a)"] ["¬P(a)"] ⟨[]⟩ "P(a)" "¬P(a)"
      [(["Q(b)"], ⟨[]⟩, "q", "r")] ⟨[["P(a)"], ["¬P(a)"]], [["P(a)"], ["¬P(a)"]], [], [], 1, 1⟩,
   c5_empty_clause_immediate_return.2.1 5 ["P(a)"] ["¬P(a)"]
      ⟨[["P(a)"], ["¬P(a)"]], [["P(a)"], ["¬P(a)"]], [], [], 1, 1⟩ _ (by rfl) [["Z(b)"]],
   c5_empty_clause_immediate_return.2.2.1 5 [["¬P(a)"]] ["P(a)"]
      ⟨[["P(a)"], ["¬P(a)"]], [["P(a)"], ["¬P(a)"]], [], [], 1, 1⟩ _ (by rfl) [["Z(b)"]],
   c5_empty_clause_immediate_return.2.2.2 5 7
      ⟨[["P(a)"], ["¬P(a)"]], [["P(a)"], ["¬P(a)"]], [], [], 1, 1⟩ _ (by rfl)⟩

/-- C6: literal text whose cleaned body (negation markers stripped, then
trimmed, as the parser does before matching) matches neither the
`identifier(args)` pattern nor a bare identifier is parsed — totally, the
embedding is a function — into an atomic nullary literal whose predicate
name is that unparsed text. -/
theorem c6_unparseable_fallback (s : String)
    (h1 : matchPredArgs (trim (lstripNeg s.data)) = none)
    (h2 : isWordStr (trim (lstripNeg s.data)) = false) :
    normLit s = (startsNeg s.data, String.mk (trim (lstripNeg s.data)), []) := by
  simp only [normLit, h1]

/-- C6 witness: the text `P ∧ Q` matches neither form and parses to the
non-negated nullary literal named by the raw text itself. -/
theorem c6_unparseable_fallback_witness :
    matchPredArgs (trim (lstripNeg "P ∧ Q".data)) = none ∧
    isWordStr (trim (lstripNeg "P ∧ Q".data)) = false ∧
    normLit "P ∧ Q" = (false, "P ∧ Q", []) :=
  ⟨by decide, by decide, c6_unparseable_fallback "P ∧ Q" (by decide) (by decide)⟩

/-- C7 counterexample: the literal `(false, P, [a,b])` has a single
argument that is a constant (not a single lowercase letter), yet rendering
and re-parsing splits it at the comma into two arguments, so the round trip
fails for a literal whose arguments are all constants. -/
theorem c7_comma_constant_breaks_roundtrip :
    is_variable "a,b" = false ∧
    normLit (renderApplied ⟨[]⟩ (false, "P", ["a,b"])) = (false, "P", ["a", "b"]) ∧
    normLit (renderApplied ⟨[]⟩ (false, "P", ["a,b"])) ≠ (false, "P", ["a,b"]) := by
  decide

/-- C7 (amended): rendering a parsed literal with the source's renderer and
re-parsing it yields the identical literal, provided the predicate name is a
nonempty word-character string and every argument is nonempty, contains no
comma, close-paren or newline, and carries no surrounding whitespace
(the original claim's all-constants hypothesis is neither necessary nor —
see the counterexample — sufficient). -/
theorem c7_roundtrip_wellformed (n : Bool) (p : String) (args : List String)
    (hp : isWordStr p.data = true)
    (ha : ∀ a ∈ args, argOk a = true) :
    normLit (renderApplied ⟨[]⟩ (n, p, args)) = (n, p, args) := by
  unfold isWordStr at hp
  rw [Bool.and_eq_true] at hp
  obtain ⟨hpne, hall⟩ := hp
  cases hd : p.data with
  | nil => rw [hd] at hpne; exact absurd hpne (by decide)
  | cons c cs =>
  have hcw : wordChar c = true := by
    have := List.all_eq_true.mp (hd ▸ hall) c (List.mem_cons_self c cs)
    exact this
  cases args with
  | nil =>
    have hD : (renderApplied ⟨[]⟩ (n, p, [])).data = (if n then '¬' :: p.data else p.data) := by
      cases n <;> rfl
    have hSN : startsNeg (if n then '¬' :: p.data else p.data) = n := by
      cases n
      · show startsNeg p.data = false
        rw [hd]
        show (c == '¬') = false
        exact beq_neg_false hcw
      · rfl
    have hLS : lstripNeg (if n then '¬' :: p.data else p.data) = p.data := by
      have hbase : lstripNeg p.data = p.data := by
        rw [hd]; exact lstripNeg_cons_ne (beq_neg_false hcw)
      cases n
      · exact hbase
      · show lstripNeg ('¬' :: p.data) = p.data
        rw [show lstripNeg ('¬' :: p.data) = lstripNeg p.data from rfl]
        exact hbase
    have hTR : trim p.data = p.data := trim_of_all_word hall
    have hM : matchPredArgs p.data = none := by
      obtain ⟨_, hdw⟩ := takeWhile_word_all p.data hall
      simp only [matchPredArgs, hdw]
    simp only [normLit, hD, hSN, hLS, hTR, hM]
  | cons a as =>
    have hres : renderApplied ⟨[]⟩ (n, p, a :: as) =
        (if n then "¬" else "") ++ p ++ "(" ++
          joinSep ", " ((a :: as).map (fun x => Substitution.apply ⟨[]⟩ x)) ++ ")" := rfl
    rw [hres, applyNil]
    have hD : ((if n then "¬" else "") ++ p ++ "(" ++ joinSep ", " (a :: as) ++ ")").data =
        (if n then '¬' :: (p.data ++ '(' :: ((joinSep ", " (a :: as)).data ++ [')']))
         else p.data ++ '(' :: ((joinSep ", " (a :: as)).data ++ [')'])) := by
      cases n <;> simp [String.data_append, List.append_assoc]
    have hSN : startsNeg (if n then '¬' :: (p.data ++ '(' :: ((joinSep ", " (a :: as)).data ++ [')']))
         else p.data ++ '(' :: ((joinSep ", " (a :: as)).data ++ [')'])) = n := by
      cases n
      · show startsNeg (p.data ++ _) = false
        rw [hd]
        show (c == '¬') = false
        exact beq_neg_false hcw
      · rfl
    have hLS : lstripNeg (if n then '¬' :: (p.data ++ '(' :: ((joinSep ", " (a :: as)).data ++ [')']))
         else p.data ++ '(' :: ((joinSep ", " (a :: as)).data ++ [')'])) =
         p.data ++ '(' :: ((joinSep ", " (a :: as)).data ++ [')']) := by
      have hbase : lstripNeg (p.data ++ '(' :: ((joinSep ", " (a :: as)).data ++ [')'])) =
          p.data ++ '(' :: ((joinSep ", " (a :: as)).data ++ [')']) := by
        rw [hd]
        exact lstripNeg_cons_ne (beq_neg_false hcw)
      cases n
      · exact hbase
      · show lstripNeg ('¬' :: _) = _
        rw [show lstripNeg ('¬' :: (p.data ++ '(' :: ((joinSep ", " (a :: as)).data ++ [')']))) =
            lstripNeg (p.data ++ '(' :: ((joinSep ", " (a :: as)).data ++ [')'])) from rfl]
        exact hbase
    have hTR : trim (p.data ++ '(' :: ((joinSep ", " (a :: as)).data ++ [')'])) =
        p.data ++ '(' :: ((joinSep ", " (a :: as)).data ++ [')']) := by
      refine trim_eq_self ?_ ?_
      · intro x hx
        rw [hd] at hx
        simp only [List.cons_append, List.head?] at hx
        rw [Option.some_inj] at hx
        subst hx
        exact wordChar_not_ws hcw
      · intro x hx
        rw [show p.data ++ '(' :: ((joinSep ", " (a :: as)).data ++ [')']) =
            (p.data ++ '(' :: (joinSep ", " (a :: as)).data) ++ [')'] by simp] at hx
        rw [List.reverse_append] at hx
        simp only [List.reverse_cons, List.reverse_nil, List.nil_append, List.cons_append,
          List.head?] at hx
        rw [Option.some_inj] at hx
        subst hx
        decide
    have hM : matchPredArgs (p.data ++ '(' :: ((joinSep ", " (a :: as)).data ++ [')'])) =
        some (p.data, (joinSep ", " (a :: as)).data) := by
      simp only [matchPredArgs, takeWhile_word_pre p.data hall, dropWhile_word_pre p.data hall]
      rw [show p.data.isEmpty = false by rw [hd]; rfl]
      rw [scanClose_append (joinSep ", " (a :: as)).data
        (join_no_bad as a (ha a (List.mem_cons_self a as))
          (fun x hx => ha x (List.mem_cons_of_mem a hx)))]
      rfl
    simp only [normLit, hD, hSN, hLS, hTR, hM]
    rw [parseArgs_join a as (ha a (List.mem_cons_self a as))
      (fun x hx => ha x (List.mem_cons_of_mem a hx))]

/-- C7 witness: the literal `¬Human(socrates)` — word-character predicate,
well-formed constant argument — survives the render/re-parse round trip. -/
theorem c7_roundtrip_wellformed_witness :
    isWordStr "Human".data = true ∧
    normLit (renderApplied ⟨[]⟩ (true, "Human", ["socrates"])) = (true, "Human", ["socrates"]) :=
  ⟨by decide, c7_roundtrip_wellformed true "Human" ["socrates"] (by decide) (by decide)⟩

/-- C8: in the run on `P(x) ∨ Q(y)` and `Q(y) ∨ P(x) ∨ Q(y)` the two input
clauses are clause-equal, yet the registry assigns them the distinct IDs
`[#1]` and `[#2]`: the dict lookup misses because the duplicate literal
makes the second clause hash differently, so the claimed same-ID rendering
of clause-equal clauses fails. -/
theorem c8_equal_clauses_distinct_ids :
    resolution_proof 10 ["P(x) ∨ Q(y)", "Q(y) ∨ P(x) ∨ Q(y)"] =
      some (false,
        ["Начальные клаузы: 2", "  [#1] P(x) ∨ Q(y)", "  [#2] Q(y) ∨ P(x) ∨ Q(y)",
         "\nНе удалось найти противоречие после 0 шагов.", "Всего выведено клауз: 2"]) ∧
    clauseEqB (parseClause "P(x) ∨ Q(y)") (parseClause "Q(y) ∨ P(x) ∨ Q(y)") = true := by
  decide

/-- C9: in the resolvent construction of `resolve`, inserting an extra
occurrence of the selected literal anywhere in a parent clause leaves the
built literal list unchanged — every occurrence is excluded, not just one;
concretely, resolving `P(a) ∨ Q(bb) ∨ P(a)` with `¬P(a)` drops both `P(a)`
occurrences from each of the two returned resolvents. -/
theorem c9_removes_all_occurrences :
    (∀ (s : Substitution) (pre post : List NLit) (sel : NLit),
      buildSide s (pre ++ sel :: post) sel = buildSide s (pre ++ post) sel) ∧
    resolve 10 ["P(a)", "Q(bb)", "P(a)"] ["¬P(a)"] =
      some [(["Q(bb)"], ⟨[]⟩, "P(a)", "¬P(a)"), (["Q(bb)"], ⟨[]⟩, "P(a)", "¬P(a)")] := by
  constructor
  · intro s pre post sel
    simp [buildSide, List.filter_append, List.filter_cons, bne_self_eq_false]
  · decide

/-- C10: literal parsing strips every leading negation marker, so a doubly
negated text parses exactly as the singly negated one, and the parsed
literal is negated — double negation collapses to negation. -/
theorem c10_double_negation : ∀ s : String,
    normLit ("¬¬" ++ s) = normLit ("¬" ++ s) ∧ (normLit ("¬¬" ++ s)).1 = true := by
  intro s
  refine ⟨rfl, ?_⟩
  show (normLit ("¬" ++ s)).1 = true
  rcases h : matchPredArgs (trim (lstripNeg ('¬' :: s.data))) with _ | ⟨w, inside⟩ <;>
    simp [normLit, h, startsNeg, show ("¬" ++ s).data = '¬' :: s.data from rfl]
